import Mathlib

/-!
# zap: the encoding / facility pipeline

A shallow embedding of `zapcore/facility.go`, `zapcore/encoder.go` and
`config.go`.

Conventions of the embedding
* a Go `error` is `Option Error`, `none` being `nil`;
* a Go `[]byte` is `List UInt8`, a Go `string` is `String`, a Go `int` or
  `int64` is `Int` (wrapped to 64 bits where the arithmetic can overflow);
* stateful code passes a `World` explicitly: the heap of encoder objects, the
  buffer pool, the state of the destination, and the log of the calls made on
  the destination;
* an interface value is a record of its methods.
-/

namespace Zap

/-! ## Errors, levels, entries, fields -/

/-- A Go error value, identified with its message. -/
structure Error where
  msg : String
deriving DecidableEq, Repr

/-- Result of `fmt.Errorf` once the format has been expanded. -/
def fmtErrorf (msg : String) : Error := ⟨msg⟩

/-- The conversion `[]byte(s)`: the UTF-8 bytes of a string. -/
def bytesOf (s : String) : List UInt8 := s.data.flatMap String.utf8EncodeChar

/-- A severity level (`type Level int8`). -/
abbrev Level := Int

/-- Modelled from the spec: the level constants of level.go, which is not among
the sources; the standard severity ordering
debug < info < warn < error < dpanic < panic < fatal. -/
def DebugLevel : Level := -1

/-- Modelled from the spec: see `DebugLevel`. -/
def InfoLevel : Level := 0

/-- Modelled from the spec: see `DebugLevel`. -/
def WarnLevel : Level := 1

/-- Modelled from the spec: see `DebugLevel`. -/
def ErrorLevel : Level := 2

/-- Modelled from the spec: see `DebugLevel`. -/
def DPanicLevel : Level := 3

/-- Modelled from the spec: see `DebugLevel`. -/
def PanicLevel : Level := 4

/-- Modelled from the spec: see `DebugLevel`. -/
def FatalLevel : Level := 5

/-- A `time.Time`, reduced to its Unix reading: whole seconds since the epoch
and the nanoseconds within the second (`0 ≤ nsec < 10^9` for a value built by
the time package). -/
structure Time where
  sec : Int
  nsec : Int
deriving DecidableEq, Repr

/-- Modelled from the spec: the Entry of entry.go, which is not among the
sources: severity level, message text, timestamp, logger name, optional caller
location, optional stack trace text. -/
structure Entry where
  Level : Level
  Time : Time
  LoggerName : String
  Message : String
  Caller : Option String
  Stack : String
deriving DecidableEq, Repr

/-- Payload of a field, by kind. -/
inductive FieldValue where
  | bool (b : Bool)
  | int64 (i : Int)
  | string (s : String)
  | duration (d : Int)
  | time (t : Time)
deriving DecidableEq, Repr

/-- Modelled from the spec: the Field of field.go, which is not among the
sources: a key string plus a typed payload. -/
structure Field where
  Key : String
  Value : FieldValue
deriving DecidableEq, Repr

/-! ## The buffer pool -/

/-- Modelled from the spec: the buffer pool of internal/buffers, which is not
among the sources. It exposes `Get` and `Put`; the accounting kept here is the
number of buffers handed out and the buffers handed back, oldest first. -/
structure Pool where
  gets : Nat
  returned : List (List UInt8)
deriving DecidableEq, Repr

/-- Modelled from the spec: `buffers.Get`, borrowing one buffer. -/
def Pool.Get (p : Pool) : Pool := { p with gets := p.gets + 1 }

/-- Modelled from the spec: `buffers.Put`, handing one buffer back. -/
def Pool.Put (p : Pool) (buf : List UInt8) : Pool :=
  { p with returned := p.returned ++ [buf] }

/-- Buffers borrowed and not yet handed back. -/
def Pool.outstanding (p : Pool) : Int := (p.gets : Int) - (p.returned.length : Int)

/-! ## The destination -/

/-- An `io.Writer` over a destination whose state has type `σ`. -/
structure Writer (σ : Type) where
  Write : σ → List UInt8 → (Int × Option Error) × σ

/-- A `WriteSyncer`: an `io.Writer` that can also flush. -/
structure WriteSyncer (σ : Type) extends Writer σ where
  Sync : σ → Option Error × σ

/-- One method call made on the destination. -/
inductive Call where
  | write (buf : List UInt8)
  | sync
deriving DecidableEq, Repr

/-- Number of `Sync()` calls in a log of calls. -/
def syncCount (cs : List Call) : Nat := cs.count Call.sync

/-- Number of `Write` calls in a log of calls. -/
def writeCount (cs : List Call) : Nat := (cs.filter (fun c => c != Call.sync)).length

/-! ## The entry encoder -/

/-- Method set of an `Encoder` over encoder objects of type `ε`. `AddTo` is
`Field.AddTo(enc)`; `Clone` gives the content of the copy; `EncodeEntry` reads
the receiver, may borrow from the pool, and returns the bytes and the error. -/
structure EncoderImpl (ε : Type) where
  AddTo : Field → ε → ε
  Clone : ε → ε
  EncodeEntry : ε → Entry → List Field → Pool → (List UInt8 × Option Error) × Pool

/-- An `Encoder` interface value: the method set and the address of the
encoder object in the heap. -/
structure Encoder (ε : Type) where
  impl : EncoderImpl ε
  ref : Nat

/-- The mutable state the facility code runs against. -/
structure World (ε σ : Type) where
  /-- heap of encoder objects, by address -/
  encs : Nat → ε
  /-- first address not yet allocated -/
  next : Nat
  pool : Pool
  /-- state of the destination -/
  dest : σ
  /-- calls made on the destination, oldest first -/
  calls : List Call

/-- Modelled from the spec: `addFields` of field.go, which is not among the
sources: each field is added to the encoder, in the order of the list. -/
def addFields {ε : Type} (impl : EncoderImpl ε) (s : ε) (fields : List Field) : ε :=
  fields.foldl (fun acc f => impl.AddTo f acc) s

/-- The method `Encoder.Clone`: by the interface's contract the receiver is not
modified and the copy is a new object, here at the first free address. -/
def Encoder.Clone {ε σ : Type} (e : Encoder ε) (w : World ε σ) : Encoder ε × World ε σ :=
  ({ impl := e.impl, ref := w.next },
   { w with encs := Function.update w.encs w.next (e.impl.Clone (w.encs e.ref)),
            next := w.next + 1 })

/-! ## facility.go -/

/-- The struct `ioFacility`: the severity filter (`Enabled`), the encoder and
the destination. -/
structure ioFacility (ε σ : Type) where
  LevelEnabler : Level → Bool
  enc : Encoder ε
  out : WriteSyncer σ

/-- The function `checkPartialWrite` writes to an `io.Writer`, and upgrades partial writes
to an error if no other write error occurred. -/
def checkPartialWrite {ε σ : Type} (wr : Writer σ) (buf : List UInt8) (w : World ε σ) :
    Option Error × World ε σ :=
  let r := wr.Write w.dest buf
  let n := r.1.1
  let err := r.1.2
  let w1 : World ε σ := { w with dest := r.2, calls := w.calls ++ [Call.write buf] }
  if err ≠ none then
    (err, w1)
  else if n ≠ (buf.length : Int) then
    (some (fmtErrorf ("incomplete write: only wrote " ++ toString n ++ " of "
      ++ toString buf.length ++ " bytes")), w1)
  else
    (none, w1)

/-- The method `ioFacility.Write`. -/
def ioFacility.Write {ε σ : Type} (iof : ioFacility ε σ) (ent : Entry) (fields : List Field)
    (w : World ε σ) : Option Error × World ε σ :=
  let r := iof.enc.impl.EncodeEntry (w.encs iof.enc.ref) ent fields w.pool
  let buf := r.1.1
  let err := r.1.2
  let w1 : World ε σ := { w with pool := r.2 }
  if err ≠ none then
    (err, w1)
  else
    let c := checkPartialWrite iof.out.toWriter buf w1
    let w2 : World ε σ := { c.2 with pool := c.2.pool.Put buf }
    if c.1 ≠ none then
      (c.1, w2)
    else if ent.Level > ErrorLevel then
      -- Since we may be crashing the program, sync the output.
      let s := iof.out.Sync w2.dest
      (s.1, { w2 with dest := s.2, calls := w2.calls ++ [Call.sync] })
    else
      (none, w2)

/-- The method `ioFacility.clone`. -/
def ioFacility.clone {ε σ : Type} (iof : ioFacility ε σ) (w : World ε σ) :
    ioFacility ε σ × World ε σ :=
  let c := iof.enc.Clone w
  ({ LevelEnabler := iof.LevelEnabler, enc := c.1, out := iof.out }, c.2)

/-- The method `ioFacility.With`. -/
def ioFacility.With {ε σ : Type} (iof : ioFacility ε σ) (fields : List Field) (w : World ε σ) :
    ioFacility ε σ × World ε σ :=
  let c := iof.clone w
  let clone := c.1
  let w1 := c.2
  (clone, { w1 with encs := Function.update w1.encs clone.enc.ref
                      (addFields clone.enc.impl (w1.encs clone.enc.ref) fields) })

/-- Modelled from the spec: the CheckedEntry of entry.go, which is not among the
sources: the per-call accumulator that collects the facilities whose filter
accepted the entry, in the order they registered. A `*CheckedEntry` is an
`Option`, `none` being the nil pointer a log call starts from. -/
structure CheckedEntry (φ : Type) where
  Entry : Entry
  facs : List φ

/-- Modelled from the spec: `CheckedEntry.AddFacility` of entry.go, which is not
among the sources: registers the facility into the accumulator, creating the
accumulator for the entry when there is none yet, and returns it. -/
def CheckedEntry.AddFacility {φ : Type} (ce : Option (CheckedEntry φ)) (ent : Zap.Entry)
    (fac : φ) : Option (CheckedEntry φ) :=
  match ce with
  | some c => some { c with facs := c.facs ++ [fac] }
  | none => some { Entry := ent, facs := [fac] }

/-- Modelled from the spec: `Level.Enabled` of level.go, which is not among the
sources: a level used as a filter accepts exactly the levels at or above its
own. -/
def Level.Enabled (l : Level) (lvl : Level) : Bool := decide (lvl ≥ l)

/-- The method `ioFacility.Check`. -/
def ioFacility.Check {ε σ : Type} (iof : ioFacility ε σ) (ent : Entry)
    (ce : Option (CheckedEntry (ioFacility ε σ))) : Option (CheckedEntry (ioFacility ε σ)) :=
  if iof.LevelEnabler ent.Level then
    CheckedEntry.AddFacility ce ent iof
  else
    ce

/-! ## encoder.go -/

/-- Renderings done by the Go standard library, taken as given: `Time.Format`,
`Duration.String` and the `%q` verb of package fmt. -/
structure GoLib where
  timeFormat : Time → String → String
  durationString : Int → String
  quote : String → String

/-- Wrap-around of an integer into the range of `int64`. -/
def wrap64 (x : Int) : Int := (x + 2 ^ 63) % 2 ^ 64 - 2 ^ 63

/-- The function `Time.UnixNano`: nanoseconds since the epoch, computed in `int64`. -/
def Time.UnixNano (t : Time) : Int := wrap64 (t.sec * 1000000000 + t.nsec)

/-- The zero value `time.Time{}`: January 1 of year 1, 00:00:00 UTC, which is
62135596800 seconds before the Unix epoch. -/
def zeroTime : Time := ⟨-62135596800, 0⟩

/-- Specification, in the words of the docstring of `EpochMillisTimeEncoder`:
the whole number of milliseconds from the Unix epoch to `t`, that is the exact
count of nanoseconds divided by 1000000 and truncated toward zero. -/
def millisSinceEpoch (t : Time) : Int := Int.tdiv (t.sec * 1000000000 + t.nsec) 1000000

/-- The function `time.Unix(sec, nsec)` for `0 ≤ nsec < 10^9`. -/
def Time.Unix (sec nsec : Int) : Time := ⟨sec, nsec⟩

/-- The constant `time.Millisecond`, a duration in nanoseconds. -/
def Millisecond : Int := 1000000

/-- The constant `time.Second`, a duration in nanoseconds. -/
def Second : Int := 1000000000

/-- The function `strings.ToUpper`, on ASCII text. -/
def ToUpper (s : String) : String := ⟨s.data.map Char.toUpper⟩

/-- Modelled from the spec: `Level.String` of level.go, which is not among the
sources: the lowercase name of the level ("info", "dpanic"). -/
def Level.String (l : Level) : String :=
  if l = DebugLevel then "debug"
  else if l = InfoLevel then "info"
  else if l = WarnLevel then "warn"
  else if l = ErrorLevel then "error"
  else if l = DPanicLevel then "dpanic"
  else if l = PanicLevel then "panic"
  else if l = FatalLevel then "fatal"
  else "Level(" ++ toString l ++ ")"

/-- The interface `PrimitiveArrayEncoder` over a sink of type `π`, restricted to
the methods the level, time and duration encoders call. -/
structure PrimitiveArrayEncoder (π : Type) where
  AppendFloat64 : Float → π → π
  AppendInt64 : Int → π → π
  AppendString : String → π → π

/-- A `LevelEncoder` serializes a Level to a primitive type. -/
abbrev LevelEncoder (π : Type) := Level → PrimitiveArrayEncoder π → π → π

/-- The function `LowercaseLevelEncoder` serializes a Level to a lowercase string. -/
def LowercaseLevelEncoder {π : Type} : LevelEncoder π :=
  fun l enc s => enc.AppendString (Level.String l) s

/-- The function `CapitalLevelEncoder` serializes a Level to an all-caps string. -/
def CapitalLevelEncoder {π : Type} : LevelEncoder π :=
  fun l enc s => enc.AppendString (ToUpper (Level.String l)) s

/-- The method `LevelEncoder.UnmarshalText`: the new value of the receiver and
the error returned. -/
def LevelEncoder.UnmarshalText {π : Type} (_e : LevelEncoder π) (text : List UInt8) :
    LevelEncoder π × Option Error :=
  if text = bytesOf "capital" then
    (CapitalLevelEncoder, none)
  else
    (LowercaseLevelEncoder, none)

/-- A `TimeEncoder` serializes a `time.Time` to a primitive type. -/
abbrev TimeEncoder (π : Type) := Time → PrimitiveArrayEncoder π → π → π

/-- The function `EpochTimeEncoder` serializes a `time.Time` to a floating-point number of
seconds since the Unix epoch. -/
def EpochTimeEncoder {π : Type} : TimeEncoder π :=
  fun t enc s =>
    let nanos := t.UnixNano
    let sec := Float.ofInt nanos / Float.ofInt Second
    enc.AppendFloat64 sec s

/-- The function `EpochMillisTimeEncoder` serializes a `time.Time` to an int64 number of
milliseconds since the Unix epoch. -/
def EpochMillisTimeEncoder {π : Type} : TimeEncoder π :=
  fun t enc s =>
    let nanos := t.UnixNano
    let millis := Int.tdiv nanos Millisecond
    enc.AppendInt64 millis s

/-- The function `ISO8601TimeEncoder` serializes a `time.Time` to an ISO8601-formatted
string. -/
def ISO8601TimeEncoder {π : Type} (go : GoLib) : TimeEncoder π :=
  fun t enc s => enc.AppendString (go.timeFormat t "2006-01-02T15:04:05Z0700") s

/-- The method `TimeEncoder.UnmarshalText`: the new value of the receiver and
the error returned. -/
def TimeEncoder.UnmarshalText {π : Type} (go : GoLib) (_e : TimeEncoder π) (text : List UInt8) :
    TimeEncoder π × Option Error :=
  if text = bytesOf "iso8601" ∨ text = bytesOf "ISO8601" then
    (ISO8601TimeEncoder go, none)
  else if text = bytesOf "millis" then
    (EpochMillisTimeEncoder, none)
  else
    (EpochTimeEncoder, none)

/-- A `DurationEncoder` serializes a `time.Duration`, a number of nanoseconds,
to a primitive type. -/
abbrev DurationEncoder (π : Type) := Int → PrimitiveArrayEncoder π → π → π

/-- The function `NanosDurationEncoder` serializes a `time.Duration` to an int64 number of
nanoseconds elapsed. -/
def NanosDurationEncoder {π : Type} : DurationEncoder π :=
  fun d enc s => enc.AppendInt64 d s

/-- The function `StringDurationEncoder` serializes a `time.Duration` using its built-in
String method. -/
def StringDurationEncoder {π : Type} (go : GoLib) : DurationEncoder π :=
  fun d enc s => enc.AppendString (go.durationString d) s

/-- The method `DurationEncoder.UnmarshalText`: the new value of the receiver
and the error returned. -/
def DurationEncoder.UnmarshalText {π : Type} (go : GoLib) (_e : DurationEncoder π)
    (text : List UInt8) : DurationEncoder π × Option Error :=
  if text = bytesOf "string" then
    (StringDurationEncoder go, none)
  else
    (NanosDurationEncoder, none)

/-- An `EncoderConfig` allows users to configure the concrete encoders supplied
by zapcore. -/
structure EncoderConfig (π : Type) where
  MessageKey : String
  LevelKey : String
  TimeKey : String
  NameKey : String
  CallerKey : String
  StacktraceKey : String
  EncodeLevel : LevelEncoder π
  EncodeTime : TimeEncoder π
  EncodeDuration : DurationEncoder π

/-! ## config.go -/

/-- The struct `SamplingConfig`. -/
structure SamplingConfig where
  Initial : Nat
  Thereafter : Nat
deriving DecidableEq, Repr

/-- The struct `Config`; `Level` is the reading of the `AtomicLevel`. -/
structure Config (π : Type) where
  Level : Level
  Development : Bool
  DisableCaller : Bool
  DisableStacktrace : Bool
  Sampling : Option SamplingConfig
  Encoding : String
  EncoderConfig : EncoderConfig π
  OutputPaths : List String
  DisableBuffering : Bool
  ErrorOutputPaths : List String
  InitialFields : List (String × FieldValue)

/-- The function `NewProductionConfig`; the argument is the level `DynamicLevel()` starts
at. -/
def NewProductionConfig {π : Type} (dynamicLevel : Level) : Config π where
  Level := dynamicLevel
  Development := false
  DisableCaller := false
  DisableStacktrace := false
  Sampling := some { Initial := 100, Thereafter := 1000 }
  Encoding := "json"
  EncoderConfig := {
    TimeKey := "ts"
    LevelKey := "level"
    NameKey := "logger"
    CallerKey := "caller"
    MessageKey := "msg"
    StacktraceKey := "stacktrace"
    EncodeLevel := LowercaseLevelEncoder
    EncodeTime := EpochTimeEncoder
    EncodeDuration := NanosDurationEncoder }
  OutputPaths := ["stdout"]
  DisableBuffering := false
  ErrorOutputPaths := ["stderr"]
  InitialFields := []

/-- The function `NewDevelopmentConfig`. -/
def NewDevelopmentConfig {π : Type} (go : GoLib) : Config π where
  Level := DebugLevel
  Development := true
  DisableCaller := false
  DisableStacktrace := false
  Sampling := none
  Encoding := "console"
  EncoderConfig := {
    TimeKey := "T"
    LevelKey := "L"
    NameKey := "N"
    CallerKey := "C"
    MessageKey := "M"
    StacktraceKey := "S"
    EncodeLevel := CapitalLevelEncoder
    EncodeTime := ISO8601TimeEncoder go
    EncodeDuration := StringDurationEncoder go }
  OutputPaths := ["stdout"]
  DisableBuffering := false
  ErrorOutputPaths := ["stderr"]
  InitialFields := []

/-- The method `Config.buildEncoder`; `NewJSONEncoder`, whose file is not among
the sources, is an argument. The first component is the encoder returned, `none`
being nil. -/
def Config.buildEncoder {π ε : Type} (go : GoLib)
    (NewJSONEncoder : Zap.EncoderConfig π → Encoder ε)
    (cfg : Config π) : Option (Encoder ε) × Option Error :=
  if cfg.Encoding = "json" then
    (some (NewJSONEncoder cfg.EncoderConfig), none)
  else if cfg.Encoding = "console" then
    -- TODO: Use the console encoder.
    (some (NewJSONEncoder cfg.EncoderConfig), none)
  else
    (none, some (fmtErrorf ("unknown encoding " ++ go.quote cfg.Encoding)))

/-! ## Stubs used to run the code on concrete inputs -/

/-- An encoder whose object is the list of accumulated fields. -/
def listEncoder : EncoderImpl (List Field) where
  AddTo := fun f s => s ++ [f]
  Clone := fun s => s
  EncodeEntry := fun s ent fields p =>
    ((bytesOf ent.Message ++ ((s ++ fields).map (fun f => bytesOf f.Key)).flatten, none),
      p.Get)

/-- An encoder whose `EncodeEntry` always fails, having borrowed nothing. -/
def failingEncoder : EncoderImpl (List Field) where
  AddTo := fun f s => s ++ [f]
  Clone := fun s => s
  EncodeEntry := fun _ _ _ p => (([], some ⟨"marshal failed"⟩), p)

/-- An encoder whose `EncodeEntry` borrows a buffer, fails half way, and returns
the partial buffer together with the error. -/
def leakyEncoder : EncoderImpl (List Field) where
  AddTo := fun f s => s ++ [f]
  Clone := fun s => s
  EncodeEntry := fun _ ent _ p => ((bytesOf ent.Message, some ⟨"marshal failed"⟩), p.Get)

/-- A destination that keeps every byte it is given. -/
def fullWriter : WriteSyncer (List UInt8) where
  Write := fun d buf => ((buf.length, none), d ++ buf)
  Sync := fun d => (none, d)

/-- A destination that reports success but consumes at most `k` bytes per call. -/
def shortWriter (k : Nat) : WriteSyncer (List UInt8) where
  Write := fun d buf => (((min k buf.length : Nat), none), d ++ buf.take k)
  Sync := fun d => (none, d)

/-- A destination whose `Write` always fails. -/
def brokenWriter : WriteSyncer (List UInt8) where
  Write := fun d _ => ((0, some ⟨"disk full"⟩), d)
  Sync := fun d => (none, d)

/-- A destination that keeps every byte but whose `Sync` fails. -/
def unsyncableWriter : WriteSyncer (List UInt8) where
  Write := fun d buf => ((buf.length, none), d ++ buf)
  Sync := fun d => (some ⟨"sync failed"⟩, d)

/-- A world with one encoder object, at address 0, holding no field. -/
def world0 : World (List Field) (List UInt8) where
  encs := fun _ => []
  next := 1
  pool := ⟨0, []⟩
  dest := []
  calls := []

/-- An entry with the given level and the message "hello". -/
def entryAt (l : Level) : Entry where
  Level := l
  Time := ⟨1, 500000000⟩
  LoggerName := ""
  Message := "hello"
  Caller := none
  Stack := ""

/-- A facility accepting every level, over the given encoder and destination. -/
def stubFacility (impl : EncoderImpl (List Field)) (out : WriteSyncer (List UInt8)) :
    ioFacility (List Field) (List UInt8) where
  LevelEnabler := fun _ => true
  enc := ⟨impl, 0⟩
  out := out

/-- A primitive value as a sink receives it. -/
inductive Prim where
  | float64 (f : Float)
  | int64 (i : Int)
  | string (s : String)

/-- A sink that keeps the values appended to it, oldest first. -/
def listSink : PrimitiveArrayEncoder (List Prim) where
  AppendFloat64 := fun f s => s ++ [Prim.float64 f]
  AppendInt64 := fun i s => s ++ [Prim.int64 i]
  AppendString := fun t s => s ++ [Prim.string t]

/-- Standard-library renderings good enough for plain text: quoting wraps the
string in double quotes, and the two other renderings are left empty. -/
def plainLib : GoLib where
  timeFormat := fun _ _ => ""
  durationString := fun _ => ""
  quote := fun s => "\"" ++ s ++ "\""

/-! ## Theorems -/

theorem checkPartialWrite_pool {ε σ : Type} (wr : Writer σ) (buf : List UInt8) (w : World ε σ) :
    (checkPartialWrite wr buf w).2.pool = w.pool := by
  unfold checkPartialWrite
  simp only
  split_ifs <;> rfl

theorem checkPartialWrite_calls {ε σ : Type} (wr : Writer σ) (buf : List UInt8) (w : World ε σ) :
    (checkPartialWrite wr buf w).2.calls = w.calls ++ [Call.write buf] := by
  unfold checkPartialWrite
  simp only
  split_ifs <;> rfl

theorem checkPartialWrite_encs {ε σ : Type} (wr : Writer σ) (buf : List UInt8) (w : World ε σ) :
    (checkPartialWrite wr buf w).2.encs = w.encs ∧ (checkPartialWrite wr buf w).2.next = w.next := by
  unfold checkPartialWrite
  simp only
  split_ifs <;> exact ⟨rfl, rfl⟩

theorem ioFacility.Write_congr {ε σ : Type} (iof : ioFacility ε σ) (ent : Entry)
    (fields : List Field) (w w1 : World ε σ)
    (henc : w1.encs iof.enc.ref = w.encs iof.enc.ref) (hpool : w1.pool = w.pool)
    (hdest : w1.dest = w.dest) (hcalls : w1.calls = w.calls) :
    (iof.Write ent fields w1).1 = (iof.Write ent fields w).1 ∧
    (iof.Write ent fields w1).2.pool = (iof.Write ent fields w).2.pool ∧
    (iof.Write ent fields w1).2.dest = (iof.Write ent fields w).2.dest ∧
    (iof.Write ent fields w1).2.calls = (iof.Write ent fields w).2.calls := by
  unfold ioFacility.Write checkPartialWrite
  simp only [henc, hpool, hdest, hcalls]
  split_ifs <;> exact ⟨rfl, rfl, rfl, rfl⟩

theorem addFields_append {ε : Type} (impl : EncoderImpl ε) (s : ε) (fs gs : List Field) :
    addFields impl s (fs ++ gs) = addFields impl (addFields impl s fs) gs := by
  simp [addFields, List.foldl_append]

theorem addFields_listEncoder (s fs : List Field) : addFields listEncoder s fs = s ++ fs := by
  induction fs generalizing s with
  | nil => simp [addFields]
  | cons f fs ih =>
    have h : addFields listEncoder s (f :: fs) = addFields listEncoder (s ++ [f]) fs := rfl
    rw [h, ih]
    simp

theorem CheckedEntry.AddFacility_ne {φ : Type} (ce : Option (CheckedEntry φ)) (ent : Zap.Entry)
    (fac : φ) : CheckedEntry.AddFacility ce ent fac ≠ ce := by
  cases ce with
  | none => simp [CheckedEntry.AddFacility]
  | some c =>
    intro h
    have h1 : (c.facs ++ [fac]).length = c.facs.length := by
      simp only [CheckedEntry.AddFacility, Option.some.injEq] at h
      exact congrArg (fun x => x.facs.length) h
    simp at h1

theorem tdiv_million (a : Int) :
    Int.tdiv a 1000000 = if 0 ≤ a then a / 1000000 else -((-a) / 1000000) := by
  split_ifs with h
  · exact Int.tdiv_eq_ediv h (by norm_num)
  · have h1 : (0 : Int) ≤ -a := by omega
    have h2 := Int.tdiv_eq_ediv h1 (by norm_num : (0 : Int) ≤ 1000000)
    rw [Int.neg_tdiv] at h2
    omega

theorem wrap64_range (x : Int) :
    -9223372036854775808 ≤ wrap64 x ∧ wrap64 x < 9223372036854775808 := by
  unfold wrap64
  norm_num
  omega

theorem wrap64_of_range (x : Int) (h0 : -9223372036854775808 ≤ x)
    (h1 : x < 9223372036854775808) : wrap64 x = x := by
  unfold wrap64
  norm_num
  omega

/-- C1: when encoding succeeds with a buffer of M bytes and the destination's
Write reports no error but a consumed count N smaller than M, `ioFacility.Write`
returns a non-nil error whose message is "incomplete write: only wrote N of M
bytes", so that it contains both N and M; when the destination reports no error
and N = M, `checkPartialWrite` returns no error. -/
theorem partial_write_is_reported {ε σ : Type} (iof : ioFacility ε σ) (ent : Entry)
    (fields : List Field) (w : World ε σ) (buf : List UInt8) (p1 : Pool) (n : Int) (d1 : σ)
    (henc : iof.enc.impl.EncodeEntry (w.encs iof.enc.ref) ent fields w.pool = ((buf, none), p1))
    (hwr : iof.out.Write w.dest buf = ((n, none), d1)) :
    (n < (buf.length : Int) →
      ∃ e : Error, (iof.Write ent fields w).1 = some e ∧
        e.msg = "incomplete write: only wrote " ++ toString n ++ " of "
          ++ toString buf.length ++ " bytes" ∧
        (toString n).data <:+: e.msg.data ∧ (toString buf.length).data <:+: e.msg.data) ∧
    (n = (buf.length : Int) → (checkPartialWrite iof.out.toWriter buf w).1 = none) := by
  constructor
  · intro hlt
    have hne : n ≠ (buf.length : Int) := ne_of_lt hlt
    refine ⟨fmtErrorf ("incomplete write: only wrote " ++ toString n ++ " of "
      ++ toString buf.length ++ " bytes"), ?_, rfl, ?_, ?_⟩
    · simp [ioFacility.Write, checkPartialWrite, henc, hwr, hne]
    · simp only [fmtErrorf, String.data_append]
      exact ⟨"incomplete write: only wrote ".data,
        " of ".data ++ (toString buf.length).data ++ " bytes".data, by simp⟩
    · simp only [fmtErrorf, String.data_append]
      exact ⟨"incomplete write: only wrote ".data ++ (toString n).data ++ " of ".data,
        " bytes".data, by simp⟩
  · intro heq
    simp [checkPartialWrite, hwr, heq]

/-- Witness for C1: the "hello" entry written through a destination that
consumes three bytes gives "only wrote 3 of 5 bytes". -/
theorem partial_write_is_reported_witness :
    ((stubFacility listEncoder (shortWriter 3)).Write (entryAt InfoLevel) [] world0).1
      = some ⟨"incomplete write: only wrote 3 of 5 bytes"⟩ := by
  obtain ⟨e, h1, h2, _⟩ :=
    (partial_write_is_reported (stubFacility listEncoder (shortWriter 3)) (entryAt InfoLevel) []
      world0 (bytesOf "hello") ⟨1, []⟩ 3 (bytesOf "hel") (by rfl) (by rfl)).1 (by decide)
  rw [h1]
  congr 1
  cases e
  simp only at h2
  subst h2
  decide

/-- C2, as stated, fails: an entry at the fatal level written through a
destination whose Write fails is not followed by any `Sync()`. -/
theorem sync_skipped_after_failed_write :
    (entryAt FatalLevel).Level > ErrorLevel ∧
    syncCount ((stubFacility listEncoder brokenWriter).Write (entryAt FatalLevel) []
      world0).2.calls = 0 ∧
    syncCount ((stubFacility listEncoder brokenWriter).Write (entryAt FatalLevel) []
      world0).2.calls ≠ syncCount world0.calls + 1 := by
  refine ⟨by decide, ?_, ?_⟩ <;> decide

/-- C2, amended: one call of `ioFacility.Write` invokes `Sync()` on the
destination exactly once when the entry's level is above `ErrorLevel` and the
record was encoded and written in full (no encoder error, no write error, every
byte consumed), and zero times in every other case, in particular whenever the
level is at or below `ErrorLevel`. -/
theorem sync_once_iff_severe_and_written {ε σ : Type} (iof : ioFacility ε σ) (ent : Entry)
    (fields : List Field) (w : World ε σ) :
    syncCount (iof.Write ent fields w).2.calls = syncCount w.calls +
      (if ent.Level > ErrorLevel
          ∧ (iof.enc.impl.EncodeEntry (w.encs iof.enc.ref) ent fields w.pool).1.2 = none
          ∧ (iof.out.Write w.dest
              (iof.enc.impl.EncodeEntry (w.encs iof.enc.ref) ent fields w.pool).1.1).1.2 = none
          ∧ (iof.out.Write w.dest
              (iof.enc.impl.EncodeEntry (w.encs iof.enc.ref) ent fields w.pool).1.1).1.1
              = ((iof.enc.impl.EncodeEntry (w.encs iof.enc.ref) ent fields w.pool).1.1.length : Int)
        then 1 else 0) := by
  generalize hr : iof.enc.impl.EncodeEntry (w.encs iof.enc.ref) ent fields w.pool = r
  obtain ⟨⟨buf, err⟩, p1⟩ := r
  generalize hq : iof.out.Write w.dest buf = q
  obtain ⟨⟨n, werr⟩, d1⟩ := q
  by_cases h1 : err = none
  · by_cases h2 : werr = none
    · by_cases h3 : n = (buf.length : Int)
      · by_cases h4 : ent.Level > ErrorLevel
        · simp [ioFacility.Write, checkPartialWrite, syncCount, hr, hq, h1, h2, h3, h4]
        · simp [ioFacility.Write, checkPartialWrite, syncCount, hr, hq, h1, h2, h3, h4]
      · simp [ioFacility.Write, checkPartialWrite, syncCount, hr, hq, h1, h2, h3]
    · simp [ioFacility.Write, checkPartialWrite, syncCount, hr, hq, h1, h2]
  · simp [ioFacility.Write, syncCount, hr, h1]

/-- C3, as stated, fails: when encoding fails, `ioFacility.Write` hands no
buffer back to the pool; and when the failing encoder had borrowed a buffer,
one more buffer is outstanding after Write than before it. -/
theorem no_put_after_failed_encoding :
    ((stubFacility failingEncoder fullWriter).Write (entryAt InfoLevel) [] world0).1
      = some ⟨"marshal failed"⟩ ∧
    ((stubFacility failingEncoder fullWriter).Write (entryAt InfoLevel) [] world0).2.pool.returned
      = world0.pool.returned ∧
    ((stubFacility failingEncoder fullWriter).Write (entryAt InfoLevel) []
      world0).2.pool.returned.length ≠ world0.pool.returned.length + 1 ∧
    ((stubFacility leakyEncoder fullWriter).Write (entryAt InfoLevel) [] world0).1
      = some ⟨"marshal failed"⟩ ∧
    ((stubFacility leakyEncoder fullWriter).Write (entryAt InfoLevel) [] world0).2.pool.returned
      = world0.pool.returned ∧
    ((stubFacility leakyEncoder fullWriter).Write (entryAt InfoLevel) []
      world0).2.pool.outstanding = world0.pool.outstanding + 1 ∧
    ((stubFacility leakyEncoder fullWriter).Write (entryAt InfoLevel) []
      world0).2.pool.outstanding ≠ world0.pool.outstanding := by
  refine ⟨by decide, by decide, by decide, by decide, by decide, by decide, by decide⟩

/-- C3, amended: in every call of `ioFacility.Write` in which encoding succeeds,
the buffer holding the encoded record is handed back to the pool exactly once
before Write returns, whatever happens next (destination write error, short
write, sync failure, success), so that pool accounting after Write equals pool
accounting before it whenever the encoder borrowed exactly that buffer; when
encoding fails, Write returns the encoder's error and hands nothing back. -/
theorem buffer_put_once_after_encoding {ε σ : Type} (iof : ioFacility ε σ) (ent : Entry)
    (fields : List Field) (w : World ε σ) :
    (iof.Write ent fields w).2.pool =
      (if (iof.enc.impl.EncodeEntry (w.encs iof.enc.ref) ent fields w.pool).1.2 = none
        then (iof.enc.impl.EncodeEntry (w.encs iof.enc.ref) ent fields w.pool).2.Put
          (iof.enc.impl.EncodeEntry (w.encs iof.enc.ref) ent fields w.pool).1.1
        else (iof.enc.impl.EncodeEntry (w.encs iof.enc.ref) ent fields w.pool).2) ∧
    ((iof.enc.impl.EncodeEntry (w.encs iof.enc.ref) ent fields w.pool).1.2 = none →
      (iof.enc.impl.EncodeEntry (w.encs iof.enc.ref) ent fields w.pool).2 = w.pool.Get →
      (iof.Write ent fields w).2.pool.returned = w.pool.returned ++
        [(iof.enc.impl.EncodeEntry (w.encs iof.enc.ref) ent fields w.pool).1.1] ∧
      (iof.Write ent fields w).2.pool.outstanding = w.pool.outstanding) := by
  generalize hr : iof.enc.impl.EncodeEntry (w.encs iof.enc.ref) ent fields w.pool = r
  obtain ⟨⟨buf, err⟩, p1⟩ := r
  have key : (iof.Write ent fields w).2.pool = (if err = none then p1.Put buf else p1) := by
    unfold ioFacility.Write
    simp only [hr]
    split_ifs <;> simp_all [checkPartialWrite_pool]
  refine ⟨key, ?_⟩
  intro h1 h2
  simp only at h1 h2
  rw [key, if_pos h1, h2]
  simp [Pool.Put, Pool.Get, Pool.outstanding]

/-- Witness for C3: the "hello" entry at the fatal level, written in full
through a destination whose `Sync` fails, leaves the pool as it was, the buffer
having been handed back. -/
theorem buffer_put_once_after_encoding_witness :
    ((stubFacility listEncoder unsyncableWriter).Write (entryAt FatalLevel) [] world0).1
      = some ⟨"sync failed"⟩ ∧
    ((stubFacility listEncoder unsyncableWriter).Write (entryAt FatalLevel) []
      world0).2.pool.returned = [bytesOf "hello"] ∧
    ((stubFacility listEncoder unsyncableWriter).Write (entryAt FatalLevel) []
      world0).2.pool.outstanding = world0.pool.outstanding :=
  ⟨by decide,
   ((buffer_put_once_after_encoding (stubFacility listEncoder unsyncableWriter)
      (entryAt FatalLevel) [] world0).2 (by rfl) (by rfl)).1,
   ((buffer_put_once_after_encoding (stubFacility listEncoder unsyncableWriter)
      (entryAt FatalLevel) [] world0).2 (by rfl) (by rfl)).2⟩

/-- C4: for a facility A whose encoder is an allocated object, `A.With(fs)`
returns a facility B with A's severity filter and A's destination handle, whose
encoder is a new object holding the clone of A's encoder with `fs` added in
order; A's encoder object, every other encoder object, the destination and the
pool are left as they were, so whatever A encodes or writes afterwards is what
it would have encoded or written before the call. -/
theorem with_leaves_original_untouched {ε σ : Type} (A : ioFacility ε σ) (fs : List Field)
    (w : World ε σ) (hA : A.enc.ref < w.next) :
    (A.With fs w).1.LevelEnabler = A.LevelEnabler ∧
    (A.With fs w).1.out = A.out ∧
    (A.With fs w).1.enc.impl = A.enc.impl ∧
    (A.With fs w).1.enc.ref ≠ A.enc.ref ∧
    (A.With fs w).2.encs (A.With fs w).1.enc.ref
      = addFields A.enc.impl (A.enc.impl.Clone (w.encs A.enc.ref)) fs ∧
    (∀ a, a < w.next → (A.With fs w).2.encs a = w.encs a) ∧
    (A.With fs w).2.dest = w.dest ∧ (A.With fs w).2.calls = w.calls ∧
    (A.With fs w).2.pool = w.pool ∧
    (∀ ent fields p, A.enc.impl.EncodeEntry ((A.With fs w).2.encs A.enc.ref) ent fields p
      = A.enc.impl.EncodeEntry (w.encs A.enc.ref) ent fields p) ∧
    (∀ ent fields, (A.Write ent fields (A.With fs w).2).1 = (A.Write ent fields w).1 ∧
      (A.Write ent fields (A.With fs w).2).2.dest = (A.Write ent fields w).2.dest) := by
  have hold : ∀ a, a < w.next → (A.With fs w).2.encs a = w.encs a := by
    intro a ha
    have hne : a ≠ w.next := Nat.ne_of_lt ha
    simp [ioFacility.With, ioFacility.clone, Encoder.Clone, Function.update, hne]
  have hAenc : (A.With fs w).2.encs A.enc.ref = w.encs A.enc.ref := hold _ hA
  refine ⟨rfl, rfl, rfl, ?_, ?_, hold, rfl, rfl, rfl, ?_, ?_⟩
  · exact Nat.ne_of_gt hA
  · simp [ioFacility.With, ioFacility.clone, Encoder.Clone]
  · intro ent fields p
    rw [hAenc]
  · intro ent fields
    have h := ioFacility.Write_congr A ent fields w (A.With fs w).2 hAenc rfl rfl rfl
    exact ⟨h.1, h.2.2.1⟩

/-- Witness for C4: adding the fields "user" and "n" to a facility with no
context gives a facility holding exactly those two fields, in that order, at a
new address; the original still holds none and still writes "hello" alone. -/
theorem with_leaves_original_untouched_witness :
    ((stubFacility listEncoder fullWriter).With
        [⟨"user", FieldValue.string "bob"⟩, ⟨"n", FieldValue.int64 1⟩] world0).2.encs 1
      = [⟨"user", FieldValue.string "bob"⟩, ⟨"n", FieldValue.int64 1⟩] ∧
    ((stubFacility listEncoder fullWriter).With
        [⟨"user", FieldValue.string "bob"⟩, ⟨"n", FieldValue.int64 1⟩] world0).2.encs 0 = [] ∧
    ((stubFacility listEncoder fullWriter).Write (entryAt InfoLevel) []
      ((stubFacility listEncoder fullWriter).With
        [⟨"user", FieldValue.string "bob"⟩, ⟨"n", FieldValue.int64 1⟩] world0).2).2.dest
      = bytesOf "hello" := by
  have h := with_leaves_original_untouched (stubFacility listEncoder fullWriter)
    [⟨"user", FieldValue.string "bob"⟩, ⟨"n", FieldValue.int64 1⟩] world0 (by decide)
  refine ⟨?_, ?_, ?_⟩
  · exact h.2.2.2.2.1.trans (by rfl)
  · exact h.2.2.2.2.2.1 0 (by decide)
  · rw [(h.2.2.2.2.2.2.2.2.2.2 (entryAt InfoLevel) []).2]
    decide

/-- C5: `f.Check(e, ce)` returns `ce.AddFacility(e, f)`, the accumulator with f
registered, if and only if f's filter reports `Enabled(e.Level)`; otherwise it
returns `ce` itself. Hence an entry at level warn checked in turn against
facilities filtered at debug, info and error, each filter accepting exactly the
levels at or above its own, ends with exactly the facilities whose filter
accepts warn registered: those filtered at debug and at info. -/
theorem check_registers_iff_enabled {ε σ : Type} (f f1 f2 f3 : ioFacility ε σ) (e : Entry)
    (ce : Option (CheckedEntry (ioFacility ε σ))) :
    f.Check e ce = (if f.LevelEnabler e.Level = true then CheckedEntry.AddFacility ce e f else ce) ∧
    (f.Check e ce = CheckedEntry.AddFacility ce e f ↔ f.LevelEnabler e.Level = true) ∧
    (f.Check e ce = ce ↔ f.LevelEnabler e.Level = false) ∧
    (({ f3 with LevelEnabler := Level.Enabled ErrorLevel } : ioFacility ε σ).Check
        { e with Level := WarnLevel }
        (({ f2 with LevelEnabler := Level.Enabled InfoLevel } : ioFacility ε σ).Check
          { e with Level := WarnLevel }
          (({ f1 with LevelEnabler := Level.Enabled DebugLevel } : ioFacility ε σ).Check
            { e with Level := WarnLevel } none))
      = some ⟨{ e with Level := WarnLevel },
          [{ f1 with LevelEnabler := Level.Enabled DebugLevel },
           { f2 with LevelEnabler := Level.Enabled InfoLevel }]⟩) ∧
    ([({ f1 with LevelEnabler := Level.Enabled DebugLevel } : ioFacility ε σ),
      { f2 with LevelEnabler := Level.Enabled InfoLevel },
      { f3 with LevelEnabler := Level.Enabled ErrorLevel }].filter
        (fun g => g.LevelEnabler WarnLevel)
      = [{ f1 with LevelEnabler := Level.Enabled DebugLevel },
         { f2 with LevelEnabler := Level.Enabled InfoLevel }]) := by
  have hne := CheckedEntry.AddFacility_ne ce e f
  have hD : Level.Enabled DebugLevel WarnLevel = true := by decide
  have hI : Level.Enabled InfoLevel WarnLevel = true := by decide
  have hE : Level.Enabled ErrorLevel WarnLevel = false := by decide
  refine ⟨rfl, ?_, ?_, ?_, ?_⟩
  · cases h : f.LevelEnabler e.Level
    · simp [ioFacility.Check, h, hne.symm]
    · simp [ioFacility.Check, h]
  · cases h : f.LevelEnabler e.Level
    · simp [ioFacility.Check, h]
    · simp [ioFacility.Check, h, hne]
  · simp [ioFacility.Check, hD, hI, hE, CheckedEntry.AddFacility]
  · simp [List.filter, hD, hI, hE]

/-- C6: for every byte string text, `LevelEncoder.UnmarshalText(text)` returns a
nil error and sets the encoder to `CapitalLevelEncoder` if text is exactly
"capital" and to `LowercaseLevelEncoder` for every other text, the empty string
included; the two render the info level as "INFO" and as "info". -/
theorem level_encoder_unmarshal {π : Type} (e : LevelEncoder π) (text : List UInt8) :
    (LevelEncoder.UnmarshalText e text).2 = none ∧
    (LevelEncoder.UnmarshalText e text).1
      = (if text = bytesOf "capital" then CapitalLevelEncoder else LowercaseLevelEncoder) ∧
    (LevelEncoder.UnmarshalText e (bytesOf "capital")).1 = CapitalLevelEncoder ∧
    (LevelEncoder.UnmarshalText e []).1 = LowercaseLevelEncoder ∧
    (LevelEncoder.UnmarshalText LowercaseLevelEncoder (bytesOf "capital")).1 InfoLevel listSink []
      = [Prim.string "INFO"] ∧
    (LevelEncoder.UnmarshalText CapitalLevelEncoder (bytesOf "something-random")).1 InfoLevel
      listSink [] = [Prim.string "info"] := by
  refine ⟨?_, ?_, rfl, rfl, rfl, rfl⟩
  · unfold LevelEncoder.UnmarshalText
    split_ifs <;> rfl
  · unfold LevelEncoder.UnmarshalText
    split_ifs <;> rfl

/-- C7: for every byte string text, `TimeEncoder.UnmarshalText(text)` returns a
nil error and sets the encoder to `ISO8601TimeEncoder` if text is "iso8601" or
"ISO8601", to `EpochMillisTimeEncoder` if text is "millis", and to
`EpochTimeEncoder` for every other text, the empty string included. -/
theorem time_encoder_unmarshal {π : Type} (go : GoLib) (e : TimeEncoder π) (text : List UInt8) :
    (TimeEncoder.UnmarshalText go e text).2 = none ∧
    (TimeEncoder.UnmarshalText go e text).1
      = (if text = bytesOf "iso8601" ∨ text = bytesOf "ISO8601" then ISO8601TimeEncoder go
         else if text = bytesOf "millis" then EpochMillisTimeEncoder
         else EpochTimeEncoder) ∧
    (TimeEncoder.UnmarshalText go e (bytesOf "iso8601")).1 = ISO8601TimeEncoder go ∧
    (TimeEncoder.UnmarshalText go e (bytesOf "ISO8601")).1 = ISO8601TimeEncoder go ∧
    (TimeEncoder.UnmarshalText go e (bytesOf "millis")).1 = EpochMillisTimeEncoder ∧
    (TimeEncoder.UnmarshalText go e []).1 = EpochTimeEncoder ∧
    (TimeEncoder.UnmarshalText go e (bytesOf "something-random")).1 = EpochTimeEncoder ∧
    (TimeEncoder.UnmarshalText go EpochTimeEncoder (bytesOf "millis")).1
      (Time.Unix 1 (500 * Millisecond)) listSink [] = [Prim.int64 1500] := by
  refine ⟨?_, ?_, rfl, rfl, rfl, rfl, rfl, rfl⟩
  · unfold TimeEncoder.UnmarshalText
    split_ifs <;> rfl
  · unfold TimeEncoder.UnmarshalText
    split_ifs <;> rfl

/-- C8: for every byte string text, `DurationEncoder.UnmarshalText(text)`
returns a nil error and sets the encoder to `StringDurationEncoder` if text is
exactly "string" and to `NanosDurationEncoder` for every other text, the empty
string included. -/
theorem duration_encoder_unmarshal {π : Type} (go : GoLib) (e : DurationEncoder π)
    (text : List UInt8) :
    (DurationEncoder.UnmarshalText go e text).2 = none ∧
    (DurationEncoder.UnmarshalText go e text).1
      = (if text = bytesOf "string" then StringDurationEncoder go else NanosDurationEncoder) ∧
    (DurationEncoder.UnmarshalText go e (bytesOf "string")).1 = StringDurationEncoder go ∧
    (DurationEncoder.UnmarshalText go e []).1 = NanosDurationEncoder ∧
    (DurationEncoder.UnmarshalText go (StringDurationEncoder go) (bytesOf "nanos")).1 1500
      listSink [] = [Prim.int64 1500] ∧
    (DurationEncoder.UnmarshalText go NanosDurationEncoder (bytesOf "string")).1 1500
      listSink [] = [Prim.string (go.durationString 1500)] := by
  refine ⟨?_, ?_, rfl, rfl, rfl, rfl⟩
  · unfold DurationEncoder.UnmarshalText
    split_ifs <;> rfl
  · unfold DurationEncoder.UnmarshalText
    split_ifs <;> rfl

/-- C9: for every Config, `buildEncoder` returns the JSON encoder built from
`cfg.EncoderConfig` with no error when `cfg.Encoding` is "json", returns that
same JSON encoder with no error when it is "console", and for every other
Encoding string, the empty string included, returns no encoder and the error
"unknown encoding " followed by the quoted string. -/
theorem build_encoder_by_encoding {π ε : Type} (go : GoLib)
    (NewJSONEncoder : EncoderConfig π → Encoder ε) (cfg : Config π) :
    Config.buildEncoder go NewJSONEncoder cfg
      = (if cfg.Encoding = "json" ∨ cfg.Encoding = "console"
          then (some (NewJSONEncoder cfg.EncoderConfig), none)
          else (none, some ⟨"unknown encoding " ++ go.quote cfg.Encoding⟩)) ∧
    Config.buildEncoder go NewJSONEncoder { cfg with Encoding := "json" }
      = (some (NewJSONEncoder cfg.EncoderConfig), none) ∧
    Config.buildEncoder go NewJSONEncoder { cfg with Encoding := "console" }
      = (some (NewJSONEncoder cfg.EncoderConfig), none) ∧
    Config.buildEncoder go NewJSONEncoder { cfg with Encoding := "" }
      = (none, some ⟨"unknown encoding " ++ go.quote ""⟩) ∧
    Config.buildEncoder plainLib NewJSONEncoder { cfg with Encoding := "yaml" }
      = (none, some ⟨"unknown encoding \"yaml\""⟩) ∧
    ((Config.buildEncoder go NewJSONEncoder cfg).1 = none ↔
      ∃ err : Error, (Config.buildEncoder go NewJSONEncoder cfg).2 = some err ∧
        "unknown encoding ".data <+: err.msg.data ∧ (go.quote cfg.Encoding).data <:+ err.msg.data) := by
  refine ⟨?_, rfl, rfl, rfl, rfl, ?_⟩
  · unfold Config.buildEncoder
    by_cases h1 : cfg.Encoding = "json"
    · simp [h1]
    · by_cases h2 : cfg.Encoding = "console"
      · simp [h2]
      · simp [h1, h2, fmtErrorf]
  · unfold Config.buildEncoder
    by_cases h1 : cfg.Encoding = "json"
    · simp [h1]
    · by_cases h2 : cfg.Encoding = "console"
      · simp [h2]
      · simp [h1, h2, fmtErrorf]
        exact ⟨"unknown encoding ".data, rfl⟩

/-- The computation of `EpochMillisTimeEncoder`: for every time t it appends to
the primitive sink exactly one value, the int64 `t.UnixNano() / 1000000` with
the division truncating toward zero (the quotient fits an int64, times 1000000
it differs from the nanoseconds by less than a millisecond and never exceeds
them in magnitude); for a time at or after the epoch whose nanoseconds fit an
int64 it is the whole number of milliseconds since the epoch, and for the epoch
plus 1.5 s it is 1500. -/
theorem epoch_millis_appends_quotient {π : Type} (t : Time) (enc : PrimitiveArrayEncoder π)
    (s : π) (xs : List Prim) :
    EpochMillisTimeEncoder t enc s = enc.AppendInt64 (Int.tdiv t.UnixNano 1000000) s ∧
    EpochMillisTimeEncoder t listSink xs = xs ++ [Prim.int64 (Int.tdiv t.UnixNano 1000000)] ∧
    (-9223372036854775808 ≤ Int.tdiv t.UnixNano 1000000 ∧
      Int.tdiv t.UnixNano 1000000 < 9223372036854775808) ∧
    (0 ≤ t.UnixNano → 0 ≤ Int.tdiv t.UnixNano 1000000 ∧
      Int.tdiv t.UnixNano 1000000 * 1000000 ≤ t.UnixNano ∧
      t.UnixNano < Int.tdiv t.UnixNano 1000000 * 1000000 + 1000000) ∧
    (t.UnixNano ≤ 0 → Int.tdiv t.UnixNano 1000000 ≤ 0 ∧
      t.UnixNano ≤ Int.tdiv t.UnixNano 1000000 * 1000000 ∧
      Int.tdiv t.UnixNano 1000000 * 1000000 - 1000000 < t.UnixNano) ∧
    (0 ≤ t.sec → 0 ≤ t.nsec → t.nsec < 1000000000 →
      t.sec * 1000000000 + t.nsec < 9223372036854775808 →
      Int.tdiv t.UnixNano 1000000 = t.sec * 1000 + t.nsec / 1000000) ∧
    EpochMillisTimeEncoder (Time.Unix 1 (500 * Millisecond)) listSink [] = [Prim.int64 1500] := by
  have hr := wrap64_range (t.sec * 1000000000 + t.nsec)
  have hq := tdiv_million t.UnixNano
  refine ⟨rfl, rfl, ?_, ?_, ?_, ?_, rfl⟩
  · unfold Time.UnixNano at hq ⊢
    split_ifs at hq <;> omega
  · intro h
    rw [if_pos h] at hq
    omega
  · intro h
    by_cases h0 : 0 ≤ t.UnixNano
    · rw [if_pos h0] at hq
      omega
    · rw [if_neg h0] at hq
      omega
  · intro h1 h2 h3 h4
    have hw : t.UnixNano = t.sec * 1000000000 + t.nsec :=
      wrap64_of_range _ (by omega) h4
    have h0 : 0 ≤ t.UnixNano := by omega
    rw [if_pos h0] at hq
    omega

/-- Instance of the computation: half a second past the first second after the epoch is
1500 whole milliseconds. -/
theorem epoch_millis_appends_quotient_witness :
    Int.tdiv (Time.Unix 1 (500 * Millisecond)).UnixNano 1000000 = 1500 ∧
    Int.tdiv (Time.Unix 1 (500 * Millisecond)).UnixNano 1000000
      = (Time.Unix 1 (500 * Millisecond)).sec * 1000
        + (Time.Unix 1 (500 * Millisecond)).nsec / 1000000 :=
  ⟨by decide,
   (epoch_millis_appends_quotient (Time.Unix 1 (500 * Millisecond)) listSink [] []).2.2.2.2.2.1
     (by decide) (by decide) (by decide) (by decide)⟩

/-- C11: `ioFacility.Write` returns the first failure in a fixed order and
swallows none: the encoder's error, in which case the destination is neither
written nor synced; else the destination's write error; else the short-write
error; else, only when the entry's level is above `ErrorLevel`, the result of
the destination's `Sync`, so that a sync failure after a successful write is
the call's error; else nil. The result is nil only when none of these failed,
and the destination's Write is invoked at most once per call. -/
theorem write_returns_first_failure {ε σ : Type} (iof : ioFacility ε σ) (ent : Entry)
    (fields : List Field) (w : World ε σ) :
    (iof.Write ent fields w).1 =
      (if (iof.enc.impl.EncodeEntry (w.encs iof.enc.ref) ent fields w.pool).1.2 ≠ none then
        (iof.enc.impl.EncodeEntry (w.encs iof.enc.ref) ent fields w.pool).1.2
      else if (iof.out.Write w.dest
          (iof.enc.impl.EncodeEntry (w.encs iof.enc.ref) ent fields w.pool).1.1).1.2 ≠ none then
        (iof.out.Write w.dest
          (iof.enc.impl.EncodeEntry (w.encs iof.enc.ref) ent fields w.pool).1.1).1.2
      else if (iof.out.Write w.dest
          (iof.enc.impl.EncodeEntry (w.encs iof.enc.ref) ent fields w.pool).1.1).1.1
          ≠ ((iof.enc.impl.EncodeEntry (w.encs iof.enc.ref) ent fields w.pool).1.1.length : Int) then
        some (fmtErrorf ("incomplete write: only wrote "
          ++ toString (iof.out.Write w.dest
              (iof.enc.impl.EncodeEntry (w.encs iof.enc.ref) ent fields w.pool).1.1).1.1
          ++ " of "
          ++ toString (iof.enc.impl.EncodeEntry (w.encs iof.enc.ref) ent fields w.pool).1.1.length
          ++ " bytes"))
      else if ent.Level > ErrorLevel then
        (iof.out.Sync (iof.out.Write w.dest
          (iof.enc.impl.EncodeEntry (w.encs iof.enc.ref) ent fields w.pool).1.1).2).1
      else none) ∧
    (iof.Write ent fields w).2.calls =
      (if (iof.enc.impl.EncodeEntry (w.encs iof.enc.ref) ent fields w.pool).1.2 ≠ none then
        w.calls
      else if (iof.out.Write w.dest
            (iof.enc.impl.EncodeEntry (w.encs iof.enc.ref) ent fields w.pool).1.1).1.2 = none
          ∧ (iof.out.Write w.dest
            (iof.enc.impl.EncodeEntry (w.encs iof.enc.ref) ent fields w.pool).1.1).1.1
            = ((iof.enc.impl.EncodeEntry (w.encs iof.enc.ref) ent fields w.pool).1.1.length : Int)
          ∧ ent.Level > ErrorLevel then
        w.calls ++ [Call.write (iof.enc.impl.EncodeEntry (w.encs iof.enc.ref) ent fields w.pool).1.1,
          Call.sync]
      else
        w.calls ++
          [Call.write (iof.enc.impl.EncodeEntry (w.encs iof.enc.ref) ent fields w.pool).1.1]) ∧
    ((iof.Write ent fields w).1 = none ↔
      (iof.enc.impl.EncodeEntry (w.encs iof.enc.ref) ent fields w.pool).1.2 = none
      ∧ (iof.out.Write w.dest
          (iof.enc.impl.EncodeEntry (w.encs iof.enc.ref) ent fields w.pool).1.1).1.2 = none
      ∧ (iof.out.Write w.dest
          (iof.enc.impl.EncodeEntry (w.encs iof.enc.ref) ent fields w.pool).1.1).1.1
          = ((iof.enc.impl.EncodeEntry (w.encs iof.enc.ref) ent fields w.pool).1.1.length : Int)
      ∧ (ent.Level > ErrorLevel →
          (iof.out.Sync (iof.out.Write w.dest
            (iof.enc.impl.EncodeEntry (w.encs iof.enc.ref) ent fields w.pool).1.1).2).1 = none)) ∧
    writeCount (iof.Write ent fields w).2.calls ≤ writeCount w.calls + 1 ∧
    ((stubFacility listEncoder unsyncableWriter).Write (entryAt FatalLevel) [] world0).1
      = some ⟨"sync failed"⟩ ∧
    ((stubFacility listEncoder unsyncableWriter).Write (entryAt ErrorLevel) [] world0).1 = none ∧
    ((stubFacility listEncoder brokenWriter).Write (entryAt FatalLevel) [] world0).1
      = some ⟨"disk full"⟩ ∧
    ((stubFacility failingEncoder brokenWriter).Write (entryAt FatalLevel) [] world0).1
      = some ⟨"marshal failed"⟩ ∧
    ((stubFacility failingEncoder brokenWriter).Write (entryAt FatalLevel) [] world0).2.calls
      = [] := by
  generalize hr : iof.enc.impl.EncodeEntry (w.encs iof.enc.ref) ent fields w.pool = r
  obtain ⟨⟨buf, err⟩, p1⟩ := r
  generalize hq : iof.out.Write w.dest buf = q
  obtain ⟨⟨n, werr⟩, d1⟩ := q
  refine ⟨?_, ?_, ?_, ?_, by decide, by decide, by decide, by decide, by decide⟩
  · by_cases h1 : err = none
    · by_cases h2 : werr = none
      · by_cases h3 : n = (buf.length : Int)
        · by_cases h4 : ent.Level > ErrorLevel
          · simp [ioFacility.Write, checkPartialWrite, hr, hq, h1, h2, h3, h4]
          · simp [ioFacility.Write, checkPartialWrite, hr, hq, h1, h2, h3, h4]
        · simp [ioFacility.Write, checkPartialWrite, hr, hq, h1, h2, h3]
      · simp [ioFacility.Write, checkPartialWrite, hr, hq, h1, h2]
    · simp [ioFacility.Write, hr, h1]
  · by_cases h1 : err = none
    · by_cases h2 : werr = none
      · by_cases h3 : n = (buf.length : Int)
        · by_cases h4 : ent.Level > ErrorLevel
          · simp [ioFacility.Write, checkPartialWrite, hr, hq, h1, h2, h3, h4]
          · simp [ioFacility.Write, checkPartialWrite, hr, hq, h1, h2, h3, h4]
        · simp [ioFacility.Write, checkPartialWrite, hr, hq, h1, h2, h3]
      · simp [ioFacility.Write, checkPartialWrite, hr, hq, h1, h2]
    · simp [ioFacility.Write, hr, h1]
  · by_cases h1 : err = none
    · by_cases h2 : werr = none
      · by_cases h3 : n = (buf.length : Int)
        · by_cases h4 : ent.Level > ErrorLevel
          · simp [ioFacility.Write, checkPartialWrite, hr, hq, h1, h2, h3, h4]
          · simp [ioFacility.Write, checkPartialWrite, hr, hq, h1, h2, h3, h4]
        · simp [ioFacility.Write, checkPartialWrite, hr, hq, h1, h2, h3]
      · simp [ioFacility.Write, checkPartialWrite, hr, hq, h1, h2]
    · simp [ioFacility.Write, hr, h1]
  · by_cases h1 : err = none
    · by_cases h2 : werr = none
      · by_cases h3 : n = (buf.length : Int)
        · by_cases h4 : ent.Level > ErrorLevel
          · simp [ioFacility.Write, checkPartialWrite, writeCount, hr, hq, h1, h2, h3, h4]
          · simp [ioFacility.Write, checkPartialWrite, writeCount, hr, hq, h1, h2, h3, h4]
        · simp [ioFacility.Write, checkPartialWrite, writeCount, hr, hq, h1, h2, h3]
      · simp [ioFacility.Write, checkPartialWrite, writeCount, hr, hq, h1, h2]
    · simp [ioFacility.Write, writeCount, hr, h1]

/-- Inside the range of times whose nanoseconds since the epoch fit an int64
(years 1678 to 2262), before or after the epoch, `EpochMillisTimeEncoder`
appends the whole number of milliseconds since the epoch. -/
theorem epoch_millis_in_range {π : Type} (t : Time) (enc : PrimitiveArrayEncoder π) (s : π)
    (h0 : -9223372036854775808 ≤ t.sec * 1000000000 + t.nsec)
    (h1 : t.sec * 1000000000 + t.nsec < 9223372036854775808) :
    EpochMillisTimeEncoder t enc s = enc.AppendInt64 (millisSinceEpoch t) s := by
  have hw : t.UnixNano = t.sec * 1000000000 + t.nsec := wrap64_of_range _ h0 h1
  simp only [EpochMillisTimeEncoder, millisSinceEpoch, Millisecond, hw]

/-- Instance of `epoch_millis_in_range`: one and a half seconds before the
epoch gives -1500. -/
theorem epoch_millis_in_range_witness :
    EpochMillisTimeEncoder (Time.Unix (-2) (500 * Millisecond)) listSink []
      = [Prim.int64 (-1500)] :=
  epoch_millis_in_range (Time.Unix (-2) (500 * Millisecond)) listSink [] (by decide) (by decide)

/-- C10: at the zero time `time.Time{}`, 62135596800 s before the epoch, the
nanoseconds since the epoch do not fit an int64: `UnixNano` wraps to
-6795364578871345152 and `EpochMillisTimeEncoder` appends -6795364578871,
which is not the whole number of milliseconds since the Unix epoch,
-62135596800000, that its docstring announces. -/
theorem epoch_millis_wrong_at_zero_time :
    zeroTime.UnixNano = -6795364578871345152 ∧
    EpochMillisTimeEncoder zeroTime listSink [] = [Prim.int64 (-6795364578871)] ∧
    millisSinceEpoch zeroTime = -62135596800000 ∧
    EpochMillisTimeEncoder zeroTime listSink [] ≠ [Prim.int64 (millisSinceEpoch zeroTime)] := by
  refine ⟨by decide, rfl, by decide, ?_⟩
  intro h
  have h1 : EpochMillisTimeEncoder zeroTime listSink [] = [Prim.int64 (-6795364578871)] := rfl
  rw [h1] at h
  have h2 : (-6795364578871 : Int) = millisSinceEpoch zeroTime := by
    injection h with h3 _
    injection h3
  revert h2
  decide

end Zap
